import Mathlib

/-!
Verification of the glidepath flight-tracker core (`src/index.jsx`).

The source is a React single-page app.  Its behavioural core is:

* `generateMockFlight` — pure generation of one flight record from
  uniform-random draws;
* the 5-second interval callback ("tick") that maps a probabilistic status
  update over the flight list, occasionally appends a fresh record, and
  truncates to the last 50 records (`newFlights.slice(-50)`);
* pure aggregation helpers `getFlightStatusData`, `getTopAirportsData`;
* the search filter `filteredFlights` and the label-wrapping utility
  `wrapLabel`.

Randomness (`Math.random()` and draws derived from it) is made explicit:
every random draw becomes a parameter.  `Math.random()` results are
rationals, `Math.floor(Math.random() * n)` draws are `Fin n` values, and
clock-derived strings are opaque string parameters.  JavaScript strings are
Lean `String`s and JS string primitives (`toLowerCase`, `includes`,
`split`, `trim`, `substring(0,3).toUpperCase()`) are modelled structurally
on the underlying character lists.
-/

/-- The five status strings of `src/index.jsx`
(`['On Time', 'Delayed', 'Departed', 'Arrived', 'Cancelled']`),
as an enumeration. -/
inductive Status where
  | onTime
  | delayed
  | departed
  | arrived
  | cancelled
deriving DecidableEq, Repr

/-- The display string of a status, exactly as in the source array. -/
def statusLabel : Status → String
  | .onTime => "On Time"
  | .delayed => "Delayed"
  | .departed => "Departed"
  | .arrived => "Arrived"
  | .cancelled => "Cancelled"

/-- `statuses` array of `generateMockFlight`. -/
def statuses : List Status := [.onTime, .delayed, .departed, .arrived, .cancelled]

/-- `airlines` array of `generateMockFlight`. -/
def airlines : List String := ["SkyLink", "GlobalAir", "Oceanic", "StarFlight", "ConnectAir"]

/-- `airports` array of `generateMockFlight`. -/
def airports : List String := ["JFK", "LHR", "DXB", "NRT", "SYD", "FRA", "CDG", "SIN", "LAX", "PEK"]

/-- `aircraftTypes` array of `generateMockFlight`. -/
def aircraftTypes : List String := ["Boeing 747", "Airbus A320", "Boeing 737", "Embraer 190"]

/-- One flight record, with the field names of the object literal returned by
`generateMockFlight`.  `isDelayed` is the source's (numeric) delay-minutes
field; `routeCoords` stores the `{lat, lon}` pairs as pairs of rationals. -/
structure Flight where
  id : String
  flightNumber : String
  origin : String
  destination : String
  status : Status
  isDelayed : Nat
  estimatedArrival : String
  actualDeparture : String
  aircraftType : String
  altitude : Nat
  speed : Nat
  gate : Nat
  terminal : Char
  routeCoords : List (ℚ × ℚ)
deriving DecidableEq, Repr

/-- JS `s.toLowerCase()`, modelled characterwise. -/
def lowerString (s : String) : String := ⟨s.data.map Char.toLower⟩

/-- JS `s.substring(0, 3).toUpperCase()` (used on airline names). -/
def upperFirst3 (s : String) : String := ⟨(s.data.take 3).map Char.toUpper⟩

/-- JS `s.includes(pat)`: substring containment. -/
def jsIncludes (s pat : String) : Bool := decide (pat.data <:+: s.data)

/-- The random draws consumed by one call of `generateMockFlight`.
`Fin n` fields model `Math.floor(Math.random() * n)`; raw `Math.random()`
values are rationals; clock-derived display strings
(`toLocaleTimeString` of `estimatedArrival` / `actualDeparture`) and the
random id token (`Math.random().toString(36).substr(2, 9)`) are opaque
strings. -/
structure GenDraws where
  idToken : String
  statusIdx : Fin 5
  airlineIdx : Fin 5
  numDraw : Fin 900
  originIdx : Fin 10
  destIdx : Fin 10
  delayDraw : Fin 120
  estArrivalStr : String
  actDepartureStr : String
  aircraftIdx : Fin 4
  altDraw : Fin 40000
  speedDraw : Fin 600
  gateDraw : Fin 50
  terminalDraw : Fin 5
  routeDraw1 : ℚ × ℚ
  routeDraw2 : ℚ × ℚ
  routeDraw3 : ℚ × ℚ

/-- One mock route point: `{ lat: Math.random()*180 - 90, lon: Math.random()*360 - 180 }`. -/
def routePoint (p : ℚ × ℚ) : ℚ × ℚ := (p.1 * 180 - 90, p.2 * 360 - 180)

/-- `generateMockFlight` of `src/index.jsx`, with all random draws taken
from `r`.  Mirrors the source line by line: `randomStatus` is drawn from
`statuses`; `isDelayed` is `Math.floor(Math.random()*120) + 10` when the
drawn status is `Delayed` and `0` otherwise; `altitude` and `speed` are
nonzero draws only when the drawn status is `Departed`. -/
def generateMockFlight (r : GenDraws) : Flight :=
  let randomStatus := statuses.get ⟨r.statusIdx.val, r.statusIdx.isLt⟩
  let isDelayed := if randomStatus = .delayed then r.delayDraw.val + 10 else 0
  { id := r.idToken
    flightNumber :=
      upperFirst3 (airlines.get ⟨r.airlineIdx.val, r.airlineIdx.isLt⟩) ++
        Nat.repr (r.numDraw.val + 100)
    origin := airports.get ⟨r.originIdx.val, r.originIdx.isLt⟩
    destination := airports.get ⟨r.destIdx.val, r.destIdx.isLt⟩
    status := randomStatus
    isDelayed := isDelayed
    estimatedArrival := r.estArrivalStr
    actualDeparture := r.actDepartureStr
    aircraftType := aircraftTypes.get ⟨r.aircraftIdx.val, r.aircraftIdx.isLt⟩
    altitude := if randomStatus = .departed then r.altDraw.val else 0
    speed := if randomStatus = .departed then r.speedDraw.val + 300 else 0
    gate := r.gateDraw.val + 1
    terminal := Char.ofNat (65 + r.terminalDraw.val)
    routeCoords := [routePoint r.routeDraw1, routePoint r.routeDraw2, routePoint r.routeDraw3] }

/-- The initial state `Array.from({ length: 50 }, generateMockFlight)`,
with the draw stream `g` supplying each call. -/
def seedFlights (g : Nat → GenDraws) : List Flight :=
  (List.range 50).map (fun i => generateMockFlight (g i))

/-- The random draws consumed for one existing record inside the tick's
`map`: `rand = Math.random()`, and the delay draw
`Math.floor(Math.random() * 60)` used if the record turns `Delayed`. -/
structure TickDraw where
  rand : ℚ
  delayDraw : Nat

/-- All randomness of one interval callback: a stream of per-record draws
for the `map`, the `Math.random()` compared against `0.2` for the optional
append, and the generator draws for the appended record. -/
structure TickRand where
  recordDraws : Nat → TickDraw
  appendRand : ℚ
  genDraws : GenDraws

/-- The body of the tick's `prevFlights.map(f => ...)` for one record:
if `rand < 0.1` and the status is `On Time`, the record becomes `Delayed`
with `isDelayed = Math.floor(Math.random()*60) + 10`; else if `rand > 0.9`
and the status is `Departed`, it becomes `Arrived` with altitude and speed
reset to 0; otherwise it is returned unchanged. -/
def tickRecord (d : TickDraw) (f : Flight) : Flight :=
  if d.rand < 0.1 ∧ f.status = .onTime then
    { f with status := .delayed, isDelayed := d.delayDraw + 10 }
  else if d.rand > 0.9 ∧ f.status = .departed then
    { f with status := .arrived, altitude := 0, speed := 0 }
  else f

/-- `prevFlights.map(...)` of the tick, consuming one `TickDraw` per record
from the stream `dr`. -/
def tickMap (dr : Nat → TickDraw) : List Flight → List Flight
  | [] => []
  | f :: fs => tickRecord (dr 0) f :: tickMap (fun n => dr (n + 1)) fs

/-- The tick state after the optional append:
`if (Math.random() < 0.2) newFlights.push(generateMockFlight())`. -/
def tickAppended (r : TickRand) (fs : List Flight) : List Flight :=
  if r.appendRand < 0.2 then tickMap r.recordDraws fs ++ [generateMockFlight r.genDraws]
  else tickMap r.recordDraws fs

/-- JS `arr.slice(-n)`: the last `n` elements (the whole array when it is
shorter than `n`). -/
def sliceLast (n : Nat) (l : List α) : List α := l.drop (l.length - n)

/-- One full interval callback (`setFlights(prevFlights => ...)`):
map the per-record update, maybe append one fresh record, then
`newFlights.slice(-50)`. -/
def tick (r : TickRand) (fs : List Flight) : List Flight :=
  sliceLast 50 (tickAppended r fs)

/-- A finite sequence of interval callbacks applied in order. -/
def ticksSeq (rs : List TickRand) (fs : List Flight) : List Flight :=
  rs.foldl (fun s r => tick r s) fs

/-- Result type of `wrapLabel`: the source returns the label unchanged when
it is short (or not a string), and an array of lines otherwise. -/
inductive WrapResult where
  | unchanged (s : String)
  | wrapped (lines : List String)
deriving DecidableEq, Repr

/-- `const maxLength = 16` of `wrapLabel`. -/
def maxLabelLength : Nat := 16

/-- JS `s.split(c)` for a single-character separator, on character lists:
empty pieces are produced for adjacent separators, and splitting the empty
list yields one empty piece, as in JavaScript. -/
def splitChar (c : Char) : List Char → List (List Char)
  | [] => [[]]
  | a :: as =>
    match splitChar c as with
    | [] => [[]]
    | g :: gs => if a = c then [] :: g :: gs else (a :: g) :: gs

/-- JS `s.split(c)` on strings. -/
def jsSplit (c : Char) (s : String) : List String :=
  (splitChar c s.data).map (fun l => ⟨l⟩)

/-- JS `s.trim()`: strip whitespace from both ends. -/
def jsTrim (s : String) : String :=
  ⟨((s.data.dropWhile Char.isWhitespace).reverse.dropWhile Char.isWhitespace).reverse⟩

/-- The `for (const word of words)` loop of `wrapLabel`, with the trailing
`if (currentLine) lines.push(currentLine.trim())`.  A word is appended to
`currentLine` (with a separating space when the line is nonempty) unless
that would exceed `maxLabelLength` characters, in which case the current
line is emitted (trimmed) and the word starts a new line. -/
def wrapLoop : List String → String → List String → List String
  | [], currentLine, lines =>
    if currentLine ≠ "" then lines ++ [jsTrim currentLine] else lines
  | w :: ws, currentLine, lines =>
    let cand := currentLine ++ (if currentLine ≠ "" then " " else "") ++ w
    if cand.length > maxLabelLength then
      wrapLoop ws w (if currentLine ≠ "" then lines ++ [jsTrim currentLine] else lines)
    else
      wrapLoop ws cand lines

/-- `wrapLabel` of `src/index.jsx` for string labels.  (The source's
non-string early return — its only defensive branch — is outside this
embedding, which types labels as strings.) -/
def wrapLabel (label : String) : WrapResult :=
  if label.length ≤ maxLabelLength then .unchanged label
  else .wrapped (wrapLoop (jsSplit ' ' label) "" [])

/-- One step of the `reduce` accumulators used by `getFlightStatusData` and
`getTopAirportsData`: `acc[key] = (acc[key] || 0) + 1` on a JS object whose
string keys enumerate in insertion order, modelled as an insertion-ordered
association list. -/
def bump {κ : Type} [DecidableEq κ] : List (κ × Nat) → κ → List (κ × Nat)
  | [], k => [(k, 1)]
  | (a, n) :: rest, k =>
    if a = k then (a, n + 1) :: rest else (a, n) :: bump rest k

/-- The `statusCounts` object of `getFlightStatusData`, as an
insertion-ordered association list from status to count. -/
def statusCounts (fs : List Flight) : List (Status × Nat) :=
  fs.foldl (fun acc f => bump acc f.status) []

/-- The color assigned to a status label by `getFlightStatusData`
(`accentAmber`, `accentRed`, `accentGreen`, `primaryCyan`). -/
def statusColor : Status → String
  | .onTime => "#FFC107"
  | .delayed => "#F44336"
  | .cancelled => "#F44336"
  | .arrived => "#4CAF50"
  | .departed => "#00BCD4"

/-- Return value of `getFlightStatusData`. -/
structure StatusChartData where
  labels : List WrapResult
  data : List Nat
  colors : List String
deriving Repr

/-- `getFlightStatusData` of `src/index.jsx`: labels are the
(insertion-ordered) keys of `statusCounts` passed through `wrapLabel`,
data are the counts, colors are looked up per status. -/
def getFlightStatusData (fs : List Flight) : StatusChartData :=
  let sc := statusCounts fs
  { labels := (sc.map Prod.fst).map (fun s => wrapLabel (statusLabel s))
    data := sc.map Prod.snd
    colors := (sc.map Prod.fst).map statusColor }

/-- The `airportCounts` object of `getTopAirportsData`: for each flight the
origin and then the destination are counted into the insertion-ordered
association list. -/
def airportCounts (fs : List Flight) : List (String × Nat) :=
  fs.foldl (fun acc f => bump (bump acc f.origin) f.destination) []

/-- The `sortedAirports` value of `getTopAirportsData`:
`Object.entries(airportCounts).sort(([,a],[,b]) => b - a).slice(0, 5)`,
with the (stable, since ES2019) JS sort modelled by the stable
`List.mergeSort` on the descending-count comparison. -/
def sortedAirports (fs : List Flight) : List (String × Nat) :=
  (List.mergeSort (airportCounts fs) (fun a b => b.2 ≤ a.2)).take 5

/-- Return value of `getTopAirportsData`. -/
structure TopAirportsData where
  labels : List WrapResult
  data : List Nat
deriving Repr

/-- `getTopAirportsData` of `src/index.jsx`. -/
def getTopAirportsData (fs : List Flight) : TopAirportsData :=
  { labels := (sortedAirports fs).map (fun p => wrapLabel p.1)
    data := (sortedAirports fs).map Prod.snd }

/-- The predicate of `filteredFlights`: the search term matches a flight
when its lowercased flight number, origin, destination, or status contains
the lowercased term as a substring. -/
def flightMatches (searchTerm : String) (f : Flight) : Bool :=
  jsIncludes (lowerString f.flightNumber) (lowerString searchTerm) ||
  jsIncludes (lowerString f.origin) (lowerString searchTerm) ||
  jsIncludes (lowerString f.destination) (lowerString searchTerm) ||
  jsIncludes (lowerString (statusLabel f.status)) (lowerString searchTerm)

/-- `filteredFlights` of `src/index.jsx`. -/
def filteredFlights (searchTerm : String) (fs : List Flight) : List Flight :=
  fs.filter (flightMatches searchTerm)

/-- Invariant: a flight that is not `Departed` has zero altitude and speed. -/
def statusInv (f : Flight) : Prop :=
  f.status ≠ .departed → f.altitude = 0 ∧ f.speed = 0

/-- Invariant: a flight with a positive delay is `Delayed`. -/
def delayInv (f : Flight) : Prop :=
  0 < f.isDelayed → f.status = .delayed

/-- Frame relation for the tick: all fields other than `status`,
`isDelayed`, `altitude` and `speed` agree. -/
def frameEq (f g : Flight) : Prop :=
  f.id = g.id ∧ f.flightNumber = g.flightNumber ∧ f.origin = g.origin ∧
  f.destination = g.destination ∧ f.estimatedArrival = g.estimatedArrival ∧
  f.actualDeparture = g.actualDeparture ∧ f.aircraftType = g.aircraftType ∧
  f.gate = g.gate ∧ f.terminal = g.terminal ∧ f.routeCoords = g.routeCoords

/-- Fixed generator draws (index 0 everywhere), used to instantiate
universally quantified theorems at a concrete input. -/
def defaultGenDraws : GenDraws :=
  { idToken := "abc123def"
    statusIdx := 0
    airlineIdx := 0
    numDraw := 0
    originIdx := 0
    destIdx := 1
    delayDraw := 0
    estArrivalStr := "10:00 AM"
    actDepartureStr := "09:00 AM"
    aircraftIdx := 0
    altDraw := 0
    speedDraw := 0
    gateDraw := 0
    terminalDraw := 0
    routeDraw1 := (0, 0)
    routeDraw2 := (0, 0)
    routeDraw3 := (0, 0) }

/-- Fixed per-record tick draws used for concrete instantiations. -/
def defaultTickDraw : TickDraw := { rand := 0, delayDraw := 0 }

/-- A concrete flight record; its searchable fields are the literal record
of the search test (`{flightNumber: "ABC123", origin: "JFK",
destination: "LHR", status: "Delayed"}`). -/
def sampleFlight : Flight :=
  { id := "f1"
    flightNumber := "ABC123"
    origin := "JFK"
    destination := "LHR"
    status := .delayed
    isDelayed := 25
    estimatedArrival := "10:00 AM"
    actualDeparture := "09:00 AM"
    aircraftType := "Boeing 747"
    altitude := 0
    speed := 0
    gate := 1
    terminal := 'A'
    routeCoords := [] }

lemma length_tick_le (r : TickRand) (fs : List Flight) : (tick r fs).length ≤ 50 := by
  simp only [tick, sliceLast, List.length_drop]
  omega

/-- C1: for every starting state (any finite list of flight records) and
every sequence of tick invocations, the list has length at most 50 after
every tick — every state reached by at least one tick has length `≤ 50`. -/
theorem tick_capacity_invariant (fs : List Flight) (rs : List TickRand) (r : TickRand) :
    (tick r (ticksSeq rs fs)).length ≤ 50 :=
  length_tick_le r _

/-- C4: the truncation `newFlights.slice(-50)` keeps exactly a suffix of
the appended list: the records it drops are exactly the
`length - 50` earliest-inserted ones at the front (FIFO), never any
others. -/
theorem tick_truncation_fifo (r : TickRand) (fs : List Flight) :
    tick r fs = (tickAppended r fs).drop ((tickAppended r fs).length - 50) ∧
    (tickAppended r fs).take ((tickAppended r fs).length - 50) ++ tick r fs =
      tickAppended r fs :=
  ⟨rfl, List.take_append_drop _ _⟩

lemma frameEq_tickRecord (d : TickDraw) (f : Flight) : frameEq f (tickRecord d f) := by
  unfold frameEq tickRecord
  split
  · simp
  · split <;> simp

lemma forall2_frameEq_tickMap (dr : Nat → TickDraw) (fs : List Flight) :
    List.Forall₂ frameEq fs (tickMap dr fs) := by
  induction fs generalizing dr with
  | nil => exact List.Forall₂.nil
  | cons f fs ih => exact List.Forall₂.cons (frameEq_tickRecord _ _) (ih _)

lemma tickMap_length (dr : Nat → TickDraw) (fs : List Flight) :
    (tickMap dr fs).length = fs.length :=
  (forall2_frameEq_tickMap dr fs).length_eq.symm

/-- C10: the tick's `map` step relates every input record pointwise to its
output record by `frameEq` (all fields other than `status`, `isDelayed`,
`altitude`, `speed` unchanged), and the tick result is a suffix of that
mapped list — the surviving records in their original relative order —
followed by at most one freshly generated record. -/
theorem tick_frame_effect (r : TickRand) (fs : List Flight) :
    List.Forall₂ frameEq fs (tickMap r.recordDraws fs) ∧
    ∃ (k : Nat) (extra : List Flight),
      (extra = [] ∨ extra = [generateMockFlight r.genDraws]) ∧
      tick r fs = (tickMap r.recordDraws fs).drop k ++ extra := by
  refine ⟨forall2_frameEq_tickMap _ _, ?_⟩
  by_cases h : r.appendRand < 0.2
  · refine ⟨(tickMap r.recordDraws fs).length + 1 - 50,
      [generateMockFlight r.genDraws], Or.inr rfl, ?_⟩
    simp only [tick, tickAppended, if_pos h, sliceLast, List.length_append,
      List.length_singleton]
    rw [List.drop_append_eq_append_drop]
    have h0 : (tickMap r.recordDraws fs).length + 1 - 50 -
        (tickMap r.recordDraws fs).length = 0 := by omega
    rw [h0, List.drop_zero]
  · exact ⟨(tickMap r.recordDraws fs).length - 50, [], Or.inl rfl,
      by simp [tick, tickAppended, h, sliceLast]⟩

/-- C2: per existing record in a tick — with `rand < 0.1` an `On Time`
record transitions to `Delayed` with a delay in `[10, 70)`; with
`rand > 0.9` a `Departed` record transitions to `Arrived` with altitude and
speed reset to 0; in all other cases the record passes through unchanged;
and the two transition guards are mutually exclusive for one record in one
tick. -/
theorem tick_record_transitions (d : TickDraw) (f : Flight) (hd : d.delayDraw < 60) :
    (d.rand < 0.1 ∧ f.status = .onTime →
      tickRecord d f = { f with status := .delayed, isDelayed := d.delayDraw + 10 } ∧
      10 ≤ (tickRecord d f).isDelayed ∧ (tickRecord d f).isDelayed < 70) ∧
    (d.rand > 0.9 ∧ f.status = .departed →
      tickRecord d f = { f with status := .arrived, altitude := 0, speed := 0 }) ∧
    (¬(d.rand < 0.1 ∧ f.status = .onTime) → ¬(d.rand > 0.9 ∧ f.status = .departed) →
      tickRecord d f = f) ∧
    ¬((d.rand < 0.1 ∧ f.status = .onTime) ∧ (d.rand > 0.9 ∧ f.status = .departed)) := by
  refine ⟨?_, ?_, ?_, ?_⟩
  · intro h
    rw [tickRecord, if_pos h]
    refine ⟨rfl, ?_, ?_⟩
    · show 10 ≤ d.delayDraw + 10
      omega
    · show d.delayDraw + 10 < 70
      omega
  · intro h
    have hn : ¬(d.rand < 0.1 ∧ f.status = .onTime) := by
      rintro ⟨-, h1⟩
      rw [h1] at h
      cases h.2
    rw [tickRecord, if_neg hn, if_pos h]
  · intro h1 h2
    rw [tickRecord, if_neg h1, if_neg h2]
  · rintro ⟨⟨-, h1⟩, ⟨-, h2⟩⟩
    rw [h1] at h2
    cases h2

/-- Witness: `tick_record_transitions` instantiated at a concrete draw and
record. -/
theorem tick_record_transitions_witness :
    (defaultTickDraw.rand < 0.1 ∧ sampleFlight.status = .onTime →
      tickRecord defaultTickDraw sampleFlight =
        { sampleFlight with status := .delayed,
                            isDelayed := defaultTickDraw.delayDraw + 10 } ∧
      10 ≤ (tickRecord defaultTickDraw sampleFlight).isDelayed ∧
      (tickRecord defaultTickDraw sampleFlight).isDelayed < 70) ∧
    (defaultTickDraw.rand > 0.9 ∧ sampleFlight.status = .departed →
      tickRecord defaultTickDraw sampleFlight =
        { sampleFlight with status := .arrived, altitude := 0, speed := 0 }) ∧
    (¬(defaultTickDraw.rand < 0.1 ∧ sampleFlight.status = .onTime) →
      ¬(defaultTickDraw.rand > 0.9 ∧ sampleFlight.status = .departed) →
      tickRecord defaultTickDraw sampleFlight = sampleFlight) ∧
    ¬((defaultTickDraw.rand < 0.1 ∧ sampleFlight.status = .onTime) ∧
      (defaultTickDraw.rand > 0.9 ∧ sampleFlight.status = .departed)) :=
  tick_record_transitions defaultTickDraw sampleFlight (by decide)

lemma invariant_tickMap {P : Flight → Prop}
    (hrec : ∀ d f, P f → P (tickRecord d f)) (dr : Nat → TickDraw) :
    ∀ fs : List Flight, (∀ f ∈ fs, P f) → ∀ f ∈ tickMap dr fs, P f := by
  intro fs
  induction fs generalizing dr with
  | nil => intro _ f hf; cases hf
  | cons g gs ih =>
    intro hfs f hf
    rcases List.mem_cons.1 hf with h | h
    · exact h ▸ hrec _ _ (hfs g (List.mem_cons_self g gs))
    · exact ih _ (fun x hx => hfs x (List.mem_cons_of_mem g hx)) f h

lemma invariant_tick {P : Flight → Prop}
    (hgen : ∀ r, P (generateMockFlight r))
    (hrec : ∀ d f, P f → P (tickRecord d f))
    (r : TickRand) (fs : List Flight) (hfs : ∀ f ∈ fs, P f) :
    ∀ f ∈ tick r fs, P f := by
  intro f hf
  have hf1 : f ∈ tickAppended r fs := List.drop_subset _ _ hf
  unfold tickAppended at hf1
  split at hf1
  · rcases List.mem_append.1 hf1 with h | h
    · exact invariant_tickMap hrec _ fs hfs f h
    · rw [List.mem_singleton.1 h]
      exact hgen _
  · exact invariant_tickMap hrec _ fs hfs f hf1

lemma invariant_ticksSeq {P : Flight → Prop}
    (hgen : ∀ r, P (generateMockFlight r))
    (hrec : ∀ d f, P f → P (tickRecord d f)) :
    ∀ (rs : List TickRand) (fs : List Flight), (∀ f ∈ fs, P f) →
      ∀ f ∈ ticksSeq rs fs, P f := by
  intro rs
  induction rs with
  | nil => intro fs hfs f hf; exact hfs f hf
  | cons r rs ih =>
    intro fs hfs f hf
    exact ih (tick r fs) (invariant_tick hgen hrec r fs hfs) f hf

lemma invariant_seed {P : Flight → Prop}
    (hgen : ∀ r, P (generateMockFlight r)) (g : Nat → GenDraws) :
    ∀ f ∈ seedFlights g, P f := by
  intro f hf
  rcases List.mem_map.1 hf with ⟨i, -, hi⟩
  exact hi ▸ hgen _

lemma statusInv_generate (r : GenDraws) : statusInv (generateMockFlight r) := by
  unfold statusInv generateMockFlight
  intro h
  simp only [List.get_eq_getElem] at h
  simp [h]

lemma statusInv_tickRecord (d : TickDraw) (f : Flight) (hf : statusInv f) :
    statusInv (tickRecord d f) := by
  unfold tickRecord
  split
  · rename_i h
    intro _
    exact hf (by simp [h.2])
  · split
    · intro _
      exact ⟨rfl, rfl⟩
    · exact hf

lemma delayInv_generate (r : GenDraws) : delayInv (generateMockFlight r) := by
  unfold delayInv generateMockFlight
  simp only
  split
  · rename_i h
    intro _
    exact h
  · intro h
    cases h

lemma delayInv_tickRecord (d : TickDraw) (f : Flight) (hf : delayInv f) :
    delayInv (tickRecord d f) := by
  unfold tickRecord
  split
  · intro _
    rfl
  · rename_i h2
    split
    · rename_i h
      intro hpos
      have hd := hf hpos
      rw [hd] at h
      cases h.2
    · exact hf

/-- C3: in every state reachable from the initial seed by any sequence of
ticks (so after initial generation and after every tick), every record
with status other than `Departed` has `altitude = 0` and `speed = 0`. -/
theorem status_altitude_speed_coupling (g : Nat → GenDraws) (rs : List TickRand) :
    ∀ f ∈ ticksSeq rs (seedFlights g), statusInv f :=
  invariant_ticksSeq statusInv_generate statusInv_tickRecord rs (seedFlights g)
    (invariant_seed statusInv_generate g)

/-- Witness: `status_altitude_speed_coupling` at the seed state (empty tick
sequence) on a concrete generated record. -/
theorem status_altitude_speed_coupling_witness :
    statusInv (generateMockFlight defaultGenDraws) :=
  status_altitude_speed_coupling (fun _ => defaultGenDraws) []
    (generateMockFlight defaultGenDraws)
    (by simp only [ticksSeq, List.foldl_nil, seedFlights]
        exact List.mem_map.mpr ⟨0, List.mem_range.mpr (by omega), rfl⟩)

/-- C5: in every state reachable from the initial seed by any sequence of
ticks (so after initial generation and after every tick), every record with
`delayMinutes > 0` has status `Delayed`. -/
theorem delay_minutes_coupling (g : Nat → GenDraws) (rs : List TickRand) :
    ∀ f ∈ ticksSeq rs (seedFlights g), delayInv f :=
  invariant_ticksSeq delayInv_generate delayInv_tickRecord rs (seedFlights g)
    (invariant_seed delayInv_generate g)

/-- Witness: `delay_minutes_coupling` at the seed state (empty tick
sequence) on a concrete generated record. -/
theorem delay_minutes_coupling_witness :
    delayInv (generateMockFlight defaultGenDraws) :=
  delay_minutes_coupling (fun _ => defaultGenDraws) []
    (generateMockFlight defaultGenDraws)
    (by simp only [ticksSeq, List.foldl_nil, seedFlights]
        exact List.mem_map.mpr ⟨0, List.mem_range.mpr (by omega), rfl⟩)

section BumpLemmas

variable {κ : Type} [DecidableEq κ]

lemma mem_keys_bump (l : List (κ × Nat)) (k a : κ) :
    a ∈ (bump l k).map Prod.fst ↔ a ∈ l.map Prod.fst ∨ a = k := by
  induction l with
  | nil => simp [bump]
  | cons p rest ih =>
    obtain ⟨b, n⟩ := p
    by_cases hb : b = k
    · subst hb
      simp [bump]
      tauto
    · simp [bump, hb, ih]
      tauto

lemma nodup_keys_bump (l : List (κ × Nat)) (k : κ)
    (h : (l.map Prod.fst).Nodup) : ((bump l k).map Prod.fst).Nodup := by
  induction l with
  | nil => simp [bump]
  | cons p rest ih =>
    obtain ⟨b, n⟩ := p
    simp only [List.map_cons, List.nodup_cons] at h
    by_cases hb : b = k
    · subst hb
      simpa [bump] using h
    · simp only [bump, if_neg hb, List.map_cons, List.nodup_cons]
      refine ⟨?_, ih h.2⟩
      rw [mem_keys_bump]
      rintro (hc | hc)
      · exact h.1 hc
      · exact hb hc

lemma sum_bump (l : List (κ × Nat)) (k : κ) :
    ((bump l k).map Prod.snd).sum = (l.map Prod.snd).sum + 1 := by
  induction l with
  | nil => simp [bump]
  | cons p rest ih =>
    obtain ⟨b, n⟩ := p
    by_cases hb : b = k <;> simp [bump, hb, ih] <;> omega

lemma values_bump (l : List (κ × Nat)) (k : κ) (C : κ → Nat)
    (hnd : (l.map Prod.fst).Nodup)
    (hl : ∀ p ∈ l, p.2 = C p.1)
    (hout : k ∉ l.map Prod.fst → C k = 0) :
    ∀ p ∈ bump l k, p.2 = if p.1 = k then C p.1 + 1 else C p.1 := by
  induction l with
  | nil =>
    intro p hp
    simp only [bump, List.mem_singleton] at hp
    subst hp
    simp [hout (by simp)]
  | cons q rest ih =>
    obtain ⟨b, n⟩ := q
    simp only [List.map_cons, List.nodup_cons] at hnd
    intro p hp
    by_cases hb : b = k
    · subst hb
      simp only [bump, if_pos rfl] at hp
      rcases List.mem_cons.1 hp with hp | hp
      · subst hp
        have hv := hl (b, n) (List.mem_cons_self _ _)
        simp only at hv
        simp [hv]
      · have hp1 : p.1 ≠ b := fun hc => hnd.1 (hc ▸ List.mem_map_of_mem Prod.fst hp)
        rw [if_neg hp1]
        exact hl p (List.mem_cons_of_mem _ hp)
    · simp only [bump, if_neg hb] at hp
      rcases List.mem_cons.1 hp with hp | hp
      · subst hp
        rw [if_neg hb]
        exact hl (b, n) (List.mem_cons_self _ _)
      · refine ih hnd.2 (fun x hx => hl x (List.mem_cons_of_mem _ hx)) ?_ p hp
        intro hk
        apply hout
        simp only [List.map_cons, List.mem_cons]
        rintro (hc | hc)
        · exact hb hc.symm
        · exact hk hc

lemma keys_foldl_bump (ks : List κ) (acc : List (κ × Nat)) (a : κ) :
    a ∈ (ks.foldl bump acc).map Prod.fst ↔ a ∈ acc.map Prod.fst ∨ a ∈ ks := by
  induction ks generalizing acc with
  | nil => simp
  | cons k ks ih =>
    simp only [List.foldl_cons, ih, mem_keys_bump, List.mem_cons]
    tauto

lemma nodup_keys_foldl_bump (ks : List κ) (acc : List (κ × Nat))
    (h : (acc.map Prod.fst).Nodup) : ((ks.foldl bump acc).map Prod.fst).Nodup := by
  induction ks generalizing acc with
  | nil => exact h
  | cons k ks ih => exact ih _ (nodup_keys_bump _ _ h)

lemma sum_foldl_bump (ks : List κ) (acc : List (κ × Nat)) :
    ((ks.foldl bump acc).map Prod.snd).sum = (acc.map Prod.snd).sum + ks.length := by
  induction ks generalizing acc with
  | nil => simp
  | cons k ks ih =>
    simp only [List.foldl_cons, ih, sum_bump, List.length_cons]
    omega

lemma values_foldl_bump (ks : List κ) (acc : List (κ × Nat)) (C : κ → Nat)
    (hnd : (acc.map Prod.fst).Nodup)
    (hacc : ∀ p ∈ acc, p.2 = C p.1)
    (hout : ∀ a, a ∉ acc.map Prod.fst → C a = 0) :
    ∀ p ∈ ks.foldl bump acc, p.2 = C p.1 + ks.count p.1 := by
  induction ks generalizing acc C with
  | nil =>
    intro p hp
    simpa using hacc p hp
  | cons k ks ih =>
    intro p hp
    simp only [List.foldl_cons] at hp
    have hnew : ∀ a, a ∉ (bump acc k).map Prod.fst →
        (if a = k then C a + 1 else C a) = 0 := by
      intro a ha
      rw [mem_keys_bump] at ha
      push_neg at ha
      rw [if_neg ha.2]
      exact hout a ha.1
    have hstep := ih (bump acc k) (fun a => if a = k then C a + 1 else C a)
      (nodup_keys_bump _ _ hnd)
      (values_bump acc k C hnd hacc (hout k))
      hnew p hp
    by_cases hpk : p.1 = k
    · simp only [if_pos hpk] at hstep
      simp [hstep, List.count_cons, hpk]
      omega
    · simp only [if_neg hpk] at hstep
      simp [hstep, List.count_cons, hpk]

end BumpLemmas

lemma statusCounts_eq (fs : List Flight) :
    statusCounts fs = (fs.map Flight.status).foldl bump [] := by
  rw [statusCounts, List.foldl_map]

/-- C6: the counts of `getFlightStatusData` sum to the number of records,
its label keys are exactly the distinct statuses occurring among the
records (statuses with zero occurrences are omitted), without duplicates,
and the chart labels are those keys in order, wrapped for display. -/
theorem status_distribution_spec (fs : List Flight) (_hne : fs ≠ []) :
    ((getFlightStatusData fs).data).sum = fs.length ∧
    ((statusCounts fs).map Prod.fst).Nodup ∧
    (∀ s : Status, s ∈ (statusCounts fs).map Prod.fst ↔ s ∈ fs.map Flight.status) ∧
    (getFlightStatusData fs).labels =
      ((statusCounts fs).map Prod.fst).map (fun s => wrapLabel (statusLabel s)) := by
  refine ⟨?_, ?_, ?_, rfl⟩
  · show ((statusCounts fs).map Prod.snd).sum = fs.length
    rw [statusCounts_eq, sum_foldl_bump]
    simp
  · rw [statusCounts_eq]
    exact nodup_keys_foldl_bump _ _ (by simp)
  · intro s
    rw [statusCounts_eq, keys_foldl_bump]
    simp

/-- Witness: `status_distribution_spec` at the one-record list
`[sampleFlight]`. -/
theorem status_distribution_spec_witness :
    ((getFlightStatusData [sampleFlight]).data).sum = [sampleFlight].length ∧
    ((statusCounts [sampleFlight]).map Prod.fst).Nodup ∧
    (∀ s : Status, s ∈ (statusCounts [sampleFlight]).map Prod.fst ↔
      s ∈ [sampleFlight].map Flight.status) ∧
    (getFlightStatusData [sampleFlight]).labels =
      ((statusCounts [sampleFlight]).map Prod.fst).map
        (fun s => wrapLabel (statusLabel s)) :=
  status_distribution_spec [sampleFlight] (List.cons_ne_nil _ _)

/-- The number of times `a` appears as an origin or as a destination across
all records. -/
def airportOccurrences (fs : List Flight) (a : String) : Nat :=
  (fs.map Flight.origin).count a + (fs.map Flight.destination).count a

/-- The number of distinct airport codes occurring as origin or destination
across all records. -/
def distinctAirportCount (fs : List Flight) : Nat :=
  ((fs.map Flight.origin ++ fs.map Flight.destination).dedup).length

lemma airportCounts_foldl (fs : List Flight) (acc : List (String × Nat)) :
    fs.foldl (fun acc f => bump (bump acc f.origin) f.destination) acc =
      (fs.flatMap (fun f => [f.origin, f.destination])).foldl bump acc := by
  induction fs generalizing acc with
  | nil => rfl
  | cons f fs ih => simp [List.foldl_cons, ih]

lemma airportCounts_eq (fs : List Flight) :
    airportCounts fs = (fs.flatMap (fun f => [f.origin, f.destination])).foldl bump [] :=
  airportCounts_foldl fs []

lemma count_occurrences (fs : List Flight) (a : String) :
    (fs.flatMap (fun f => [f.origin, f.destination])).count a = airportOccurrences fs a := by
  induction fs with
  | nil => simp [airportOccurrences]
  | cons f fs ih =>
    simp only [List.flatMap_cons, List.cons_append, List.nil_append, List.count_cons,
      airportOccurrences, List.map_cons, ih] at *
    omega

lemma mem_occurrences (fs : List Flight) (a : String) :
    a ∈ fs.flatMap (fun f => [f.origin, f.destination]) ↔
      a ∈ fs.map Flight.origin ++ fs.map Flight.destination := by
  constructor
  · intro hmem
    rcases List.mem_flatMap.1 hmem with ⟨f, hf, hin⟩
    rcases List.mem_cons.1 hin with h | h
    · exact List.mem_append.2 (Or.inl (List.mem_map.2 ⟨f, hf, h.symm⟩))
    · exact List.mem_append.2
        (Or.inr (List.mem_map.2 ⟨f, hf, (List.mem_singleton.1 h).symm⟩))
  · intro hmem
    rcases List.mem_append.1 hmem with h | h
    · rcases List.mem_map.1 h with ⟨f, hf, he⟩
      exact List.mem_flatMap.2 ⟨f, hf, List.mem_cons.2 (Or.inl he.symm)⟩
    · rcases List.mem_map.1 h with ⟨f, hf, he⟩
      exact List.mem_flatMap.2
        ⟨f, hf, List.mem_cons.2 (Or.inr (List.mem_singleton.2 he.symm))⟩

/-- C7: `getTopAirportsData` keeps at most `min(5, distinct airport count)`
pairs; every kept pair carries the exact origin-plus-destination frequency
of its airport code; the kept frequencies are non-increasing; and the chart
data is exactly those frequencies. -/
theorem top_airports_spec (fs : List Flight) :
    (sortedAirports fs).length ≤ 5 ∧
    (sortedAirports fs).length ≤ distinctAirportCount fs ∧
    List.Forall (fun p => p.2 = airportOccurrences fs p.1) (sortedAirports fs) ∧
    ((sortedAirports fs).map Prod.snd).Sorted (· ≥ ·) ∧
    (getTopAirportsData fs).data = (sortedAirports fs).map Prod.snd := by
  have hlen_sorted : (sortedAirports fs).length ≤ (airportCounts fs).length := by
    simp [sortedAirports]
  refine ⟨by simp [sortedAirports], ?_, ?_, ?_, rfl⟩
  · refine le_trans hlen_sorted ?_
    have hnd : ((airportCounts fs).map Prod.fst).Nodup := by
      rw [airportCounts_eq]
      exact nodup_keys_foldl_bump _ _ (by simp)
    have hmem : ∀ a, a ∈ (airportCounts fs).map Prod.fst ↔
        a ∈ (fs.map Flight.origin ++ fs.map Flight.destination).dedup := by
      intro a
      rw [airportCounts_eq, keys_foldl_bump, List.mem_dedup, ← mem_occurrences]
      simp
    have hperm : List.Perm ((airportCounts fs).map Prod.fst)
        ((fs.map Flight.origin ++ fs.map Flight.destination).dedup) :=
      (List.perm_ext_iff_of_nodup hnd (List.nodup_dedup _)).2 hmem
    have heq : (airportCounts fs).length = distinctAirportCount fs := by
      have h1 : (airportCounts fs).length = ((airportCounts fs).map Prod.fst).length := by
        simp
      rw [h1]
      exact hperm.length_eq
    exact le_of_eq heq
  · rw [List.forall_iff_forall_mem]
    intro p hp
    have hp1 : p ∈ airportCounts fs := by
      have := List.take_subset 5 _ hp
      rwa [List.mem_mergeSort] at this
    rw [airportCounts_eq] at hp1
    have := values_foldl_bump _ [] (fun _ => 0) (by simp) (by simp) (by simp) p hp1
    rwa [count_occurrences, Nat.zero_add] at this
  · have hs := @List.sorted_mergeSort (String × Nat)
      (fun a b => decide (b.2 ≤ a.2))
      (by intro a b c h1 h2; simp only [decide_eq_true_eq] at *; omega)
      (by intro a b; simp only [Bool.or_eq_true, decide_eq_true_eq]; exact Nat.le_total _ _)
      (airportCounts fs)
    have hp : (sortedAirports fs).Pairwise (fun a b => b.2 ≤ a.2) := by
      refine List.Pairwise.sublist (List.take_sublist _ _) ?_
      exact hs.imp (by intro a b hb; simpa using hb)
    rw [List.Sorted, List.pairwise_map]
    exact hp

/-- Witness: `top_airports_spec` applied at the one-record list
`[sampleFlight]` (it has hypotheses only inside `List.Forall`, which is an
unfolding conjunction, but we record a concrete instantiation anyway). -/
theorem top_airports_spec_witness :
    (sortedAirports [sampleFlight]).length ≤ 5 ∧
    (sortedAirports [sampleFlight]).length ≤ distinctAirportCount [sampleFlight] ∧
    List.Forall (fun p => p.2 = airportOccurrences [sampleFlight] p.1)
      (sortedAirports [sampleFlight]) ∧
    ((sortedAirports [sampleFlight]).map Prod.snd).Sorted (· ≥ ·) ∧
    (getTopAirportsData [sampleFlight]).data = (sortedAirports [sampleFlight]).map Prod.snd :=
  top_airports_spec [sampleFlight]

/-- C8: the search predicate holds exactly when the lowercased query is a
substring of the lowercased flight number, origin, destination, or status;
on the literal record `{flightNumber: "ABC123", origin: "JFK",
destination: "LHR", status: Delayed}` the query "jfk" matches and the query
"xyz" does not. -/
theorem search_predicate_spec :
    (∀ (q : String) (f : Flight),
      flightMatches q f = true ↔
        ((lowerString q).data <:+: (lowerString f.flightNumber).data ∨
         (lowerString q).data <:+: (lowerString f.origin).data ∨
         (lowerString q).data <:+: (lowerString f.destination).data ∨
         (lowerString q).data <:+: (lowerString (statusLabel f.status)).data)) ∧
    flightMatches "jfk" sampleFlight = true ∧
    flightMatches "xyz" sampleFlight = false := by
  refine ⟨?_, by decide, by decide⟩
  intro q f
  simp [flightMatches, jsIncludes]
  tauto

lemma splitChar_no_sep (c : Char) (l : List Char) : ∀ g ∈ splitChar c l, c ∉ g := by
  induction l with
  | nil =>
    intro g hg
    simp only [splitChar, List.mem_singleton] at hg
    subst hg
    simp
  | cons a as ih =>
    intro g hg
    cases hsc : splitChar c as with
    | nil =>
      simp only [splitChar, hsc, List.mem_singleton] at hg
      subst hg
      simp
    | cons g' gs =>
      simp only [splitChar, hsc] at hg
      by_cases hac : a = c
      · rw [if_pos hac] at hg
        rcases List.mem_cons.1 hg with h | h
        · subst h
          simp
        · exact ih g (hsc ▸ h)
      · rw [if_neg hac] at hg
        rcases List.mem_cons.1 hg with h | h
        · subst h
          intro hc
          rcases List.mem_cons.1 hc with h2 | h2
          · exact hac h2.symm
          · exact ih g' (hsc ▸ List.mem_cons_self g' gs) h2
        · exact ih g (hsc ▸ List.mem_cons_of_mem g' h)

lemma jsTrim_length_le (s : String) : (jsTrim s).length ≤ s.length := by
  show (((s.data.dropWhile Char.isWhitespace).reverse.dropWhile
      Char.isWhitespace).reverse).length ≤ s.data.length
  rw [List.length_reverse]
  refine le_trans (List.dropWhile_sublist Char.isWhitespace).length_le ?_
  rw [List.length_reverse]
  exact (List.dropWhile_sublist Char.isWhitespace).length_le

lemma not_mem_jsTrim (c : Char) (s : String) (h : c ∉ s.data) : c ∉ (jsTrim s).data := by
  intro hc
  apply h
  have h1 := List.mem_reverse.1 hc
  have h2 := (List.dropWhile_sublist Char.isWhitespace).subset h1
  have h3 := List.mem_reverse.1 h2
  exact (List.dropWhile_sublist Char.isWhitespace).subset h3

lemma wrapLoop_lines_ok (words : List String) (cur : String) (lines : List String)
    (hw : ∀ w ∈ words, ' ' ∉ w.data)
    (hcur : cur.length ≤ maxLabelLength ∨ ' ' ∉ cur.data)
    (hlines : ∀ l ∈ lines, l.length ≤ maxLabelLength ∨ ' ' ∉ l.data) :
    ∀ l ∈ wrapLoop words cur lines, l.length ≤ maxLabelLength ∨ ' ' ∉ l.data := by
  induction words generalizing cur lines with
  | nil =>
    intro l hl
    simp only [wrapLoop] at hl
    split at hl
    · rcases List.mem_append.1 hl with h | h
      · exact hlines l h
      · rw [List.mem_singleton.1 h]
        rcases hcur with h1 | h1
        · exact Or.inl (le_trans (jsTrim_length_le cur) h1)
        · exact Or.inr (not_mem_jsTrim _ _ h1)
    · exact hlines l hl
  | cons w ws ih =>
    intro l hl
    simp only [wrapLoop] at hl
    by_cases hlen : (cur ++ (if cur ≠ "" then " " else "") ++ w).length > maxLabelLength
    · rw [if_pos hlen] at hl
      refine ih w (if cur ≠ "" then lines ++ [jsTrim cur] else lines)
        (fun x hx => hw x (List.mem_cons_of_mem _ hx))
        (Or.inr (hw w (List.mem_cons_self _ _))) ?_ l hl
      intro x hx
      split at hx
      · rcases List.mem_append.1 hx with h | h
        · exact hlines x h
        · rw [List.mem_singleton.1 h]
          rcases hcur with h1 | h1
          · exact Or.inl (le_trans (jsTrim_length_le cur) h1)
          · exact Or.inr (not_mem_jsTrim _ _ h1)
      · exact hlines x hx
    · rw [if_neg hlen] at hl
      exact ih (cur ++ (if cur ≠ "" then " " else "") ++ w) lines
        (fun x hx => hw x (List.mem_cons_of_mem _ hx))
        (Or.inl (by omega)) hlines l hl

/-- C9: `wrapLabel` wraps `"Boeing 747 Freighter"` (20 characters, max
width 16) to exactly the two lines `["Boeing 747", "Freighter"]`, and in
general every produced line either fits in 16 characters or is a single
space-free word (greedy word packing can only exceed the width with an
unbreakable word). -/
theorem wrap_label_spec :
    wrapLabel "Boeing 747 Freighter" = .wrapped ["Boeing 747", "Freighter"] ∧
    ∀ (label : String) (ls : List String), wrapLabel label = .wrapped ls →
      ∀ l ∈ ls, l.length ≤ maxLabelLength ∨ ' ' ∉ l.data := by
  constructor
  · decide
  · intro label ls hwl l hl
    unfold wrapLabel at hwl
    split at hwl
    · cases hwl
    · cases hwl
      refine wrapLoop_lines_ok (jsSplit ' ' label) "" [] ?_ (Or.inl (by decide)) ?_ l hl
      · intro w hwmem
        rcases List.mem_map.1 hwmem with ⟨g, hg, he⟩
        subst he
        exact splitChar_no_sep ' ' label.data g hg
      · intro x hx
        cases hx

/-- Witness: the general clause of `wrap_label_spec` applied at the
concrete label, with the hypothesis discharged by its concrete clause. -/
theorem wrap_label_spec_witness :
    ∀ l ∈ ["Boeing 747", "Freighter"], l.length ≤ maxLabelLength ∨ ' ' ∉ l.data :=
  wrap_label_spec.2 "Boeing 747 Freighter" ["Boeing 747", "Freighter"] wrap_label_spec.1
